import Mathlib

/-
Verification of the gisty paste service core against its design document.

The Go sources are shallowly embedded: pure functions become Lean
functions on `Nat` / `Int` / `String` / `List`; machine `uint64`
arithmetic is modelled as `Nat` arithmetic reduced `% 2 ^ 64` at the
operations where Go wraps; fallible operations return `Option` or
`Except`.  Stateful components (KGS pool, metadata index, cache, blob
store) are modelled as association lists inside an explicit state
record, and the service handlers become state-passing functions.
-/

namespace Gisty

/- ===================== Base62 codec (pkg/base62) ===================== -/

/-- The 62-character alphabet, in the order of the Go constant `Charset`:
digits, lowercase, uppercase. -/
def base62Charset : List Char :=
  "0123456789abcdefghijklmnopqrstuvwxyzABCDEFGHIJKLMNOPQRSTUVWXYZ".toList

/-- Index of a character in the alphabet, mirroring the Go `charIndex`
array: runes above 255 are rejected, every byte not in the alphabet maps
to "invalid" (`none`). -/
def charIndex (c : Char) : Option Nat :=
  if 255 < c.toNat then none else base62Charset.findIdx? (fun x => x = c)

/-- One step of the Go decode loop: `num = num*base + uint64(idx)` with
`uint64` wraparound made explicit. -/
def decodeStep (acc : Nat) (c : Char) : Option Nat :=
  match charIndex c with
  | none => none
  | some i => some ((acc * 62 + i) % 2 ^ 64)

/-- Embedding of `base62.Decode`: reject the empty string, then fold the
decode step over the runes, failing on the first invalid rune. -/
def Decode (s : String) : Option Nat :=
  if s.data.isEmpty then none else s.data.foldlM decodeStep 0

/-- Least-significant-first digit extraction, as performed by the
`for num > 0` loop of `base62.Encode`; structural recursion on fuel. -/
def digitsAux : Nat → Nat → List Nat
  | 0, _ => []
  | fuel + 1, num => if num = 0 then [] else num % 62 :: digitsAux fuel (num / 62)

/-- Digits of `num` in base 62, least significant first (`[]` for 0). -/
def base62Digits (num : Nat) : List Nat := digitsAux num num

/-- Character for a digit value (`Charset[remainder]` in the Go loop). -/
def base62CharOf (d : Nat) : Char := base62Charset.getD d '0'

/-- Embedding of `base62.Encode`: emit digits least significant first,
map them through the alphabet and reverse; `Encode 0 = "0"`. -/
def Encode (num : Nat) : String :=
  if num = 0 then "0" else String.mk (((base62Digits num).map base62CharOf).reverse)

lemma digitsAux_eq_digits : ∀ fuel num, num ≤ fuel → digitsAux fuel num = Nat.digits 62 num := by
  intro fuel
  induction fuel with
  | zero =>
    intro num h
    interval_cases num
    simp [digitsAux]
  | succ f ih =>
    intro num h
    by_cases hn : num = 0
    · subst hn; simp [digitsAux]
    · rw [digitsAux, if_neg hn,
        Nat.digits_def' (by norm_num : (1:ℕ) < 62) (Nat.pos_of_ne_zero hn),
        ih (num / 62)]
      have := Nat.div_lt_self (Nat.pos_of_ne_zero hn) (by norm_num : 1 < 62)
      omega

lemma base62Digits_eq (num : Nat) : base62Digits num = Nat.digits 62 num :=
  digitsAux_eq_digits num num le_rfl

lemma foldl_reverse_ofDigits (L : List Nat) (acc : Nat) :
    List.foldl (fun a d => a * 62 + d) acc L.reverse
      = acc * 62 ^ L.length + Nat.ofDigits 62 L := by
  induction L generalizing acc with
  | nil => simp [Nat.ofDigits]
  | cons d L ih =>
    rw [List.reverse_cons, List.foldl_append, ih]
    simp only [List.foldl_cons, List.foldl_nil, List.length_cons, Nat.ofDigits_cons]
    ring

lemma foldl_mod_general {α : Type} (f : α → Nat) (L : List α) (acc : Nat) :
    List.foldl (fun a x => (a * 62 + f x) % 2 ^ 64) (acc % 2 ^ 64) L
      = (List.foldl (fun a x => a * 62 + f x) acc L) % 2 ^ 64 := by
  induction L generalizing acc with
  | nil => rfl
  | cons x L ih =>
    simp only [List.foldl_cons]
    rw [show (acc % 2 ^ 64 * 62 + f x) % 2 ^ 64 = (acc * 62 + f x) % 2 ^ 64 from
      ((Nat.mod_modEq acc (2 ^ 64)).mul_right 62).add_right (f x), ih]

lemma charIndex_charOf_fin : ∀ d : Fin 62, charIndex (base62CharOf d.val) = some d.val := by
  decide

lemma charIndex_charOf {d : Nat} (hd : d < 62) : charIndex (base62CharOf d) = some d :=
  charIndex_charOf_fin ⟨d, hd⟩

lemma foldlM_decode_map (ds : List Nat) (h : ∀ d ∈ ds, d < 62) (acc : Nat) :
    List.foldlM decodeStep acc (ds.map base62CharOf)
      = some (List.foldl (fun a d => (a * 62 + d) % 2 ^ 64) acc ds) := by
  induction ds generalizing acc with
  | nil => rfl
  | cons d ds ih =>
    have hd : d < 62 := h d (List.mem_cons_self d ds)
    simp only [List.map_cons, List.foldlM_cons, decodeStep, charIndex_charOf hd,
      Option.bind_eq_bind, Option.some_bind, List.foldl_cons]
    exact ih (fun x hx => h x (List.mem_cons_of_mem d hx)) _

/-- C1.  Base62 round-trip: for every unsigned 64-bit integer `n`,
`Decode (Encode n)` succeeds and returns exactly `n`. -/
theorem base62_decode_encode (n : Nat) (h : n < 2 ^ 64) : Decode (Encode n) = some n := by
  by_cases hn : n = 0
  · subst hn; decide
  · have hne : Nat.digits 62 n ≠ [] := Nat.digits_ne_nil_iff_ne_zero.mpr hn
    have hlt : ∀ d ∈ base62Digits n, d < 62 := by
      intro d hd
      rw [base62Digits_eq] at hd
      exact Nat.digits_lt_base (by norm_num) hd
    rw [Encode, if_neg hn, Decode]
    have hdata : (String.mk (((base62Digits n).map base62CharOf).reverse)).data
        = ((base62Digits n).map base62CharOf).reverse := rfl
    rw [hdata]
    have hne2 : ((base62Digits n).map base62CharOf).reverse ≠ [] := by
      simp [base62Digits_eq, hne]
    rw [if_neg (by simpa [List.isEmpty_iff] using hne2)]
    rw [← List.map_reverse]
    rw [foldlM_decode_map _ (fun d hd => hlt d (List.mem_reverse.mp hd)) 0]
    rw [show (0 : Nat) = 0 % 2 ^ 64 from rfl, foldl_mod_general (fun d => d)]
    rw [foldl_reverse_ofDigits, base62Digits_eq, Nat.ofDigits_digits]
    simp only [Nat.zero_mul, Nat.zero_add]
    rw [Nat.mod_eq_of_lt h]

/-- Witness for C1 at the concrete input 123456789. -/
theorem base62_decode_encode_witness :
    123456789 < 2 ^ 64 ∧ Decode (Encode 123456789) = some 123456789 :=
  ⟨by norm_num, base62_decode_encode 123456789 (by norm_num)⟩

/-- Digit value of a character, with invalid characters mapped to 0. -/
def charVal (c : Char) : Nat := (charIndex c).getD 0

/-- The exact mathematical base-62 value of a string (no `uint64`
wraparound), used to state what `Decode` computes. -/
def base62Val (s : String) : Nat :=
  s.data.foldl (fun a c => a * 62 + charVal c) 0

/-- Leading `'0'` characters stripped, with the all-zero string
canonicalized to `"0"`. -/
def stripLeadingZeros (s : String) : String :=
  let t := s.data.dropWhile (fun c => c = '0')
  if t.isEmpty then "0" else String.mk t

lemma charVal_lt : ∀ c ∈ base62Charset, charVal c < 62 := by decide

lemma charIndex_isSome : ∀ c ∈ base62Charset, (charIndex c).isSome = true := by decide

lemma charOf_charVal : ∀ c ∈ base62Charset, base62CharOf (charVal c) = c := by decide

lemma charVal_zero_iff : ∀ c ∈ base62Charset, (charVal c = 0 ↔ c = '0') := by decide

lemma foldlM_decode_chars (L : List Char) (h : ∀ c ∈ L, (charIndex c).isSome = true)
    (acc : Nat) :
    List.foldlM decodeStep acc L
      = some (List.foldl (fun a c => (a * 62 + charVal c) % 2 ^ 64) acc L) := by
  induction L generalizing acc with
  | nil => rfl
  | cons c L ih =>
    have hc := h c (List.mem_cons_self c L)
    obtain ⟨i, hi⟩ := Option.isSome_iff_exists.mp hc
    have hv : charVal c = i := by simp [charVal, hi]
    simp only [List.foldlM_cons, decodeStep, hi, Option.bind_eq_bind, Option.some_bind,
      List.foldl_cons, hv]
    exact ih (fun x hx => h x (List.mem_cons_of_mem c hx)) _

lemma decode_alphabet_val (s : String) (h1 : ¬s.data = [])
    (h2 : ∀ c ∈ s.data, c ∈ base62Charset) :
    Decode s = some (base62Val s % 2 ^ 64) := by
  rw [Decode, if_neg (by simpa [List.isEmpty_iff] using h1)]
  rw [foldlM_decode_chars s.data (fun c hc => charIndex_isSome c (h2 c hc)) 0]
  rw [show (0 : Nat) = 0 % 2 ^ 64 from rfl, foldl_mod_general charVal]
  rfl

lemma valMSB_eq_ofDigits (ds : List Nat) :
    List.foldl (fun a d => a * 62 + d) 0 ds = Nat.ofDigits 62 ds.reverse := by
  have h := foldl_reverse_ofDigits ds.reverse 0
  rw [List.reverse_reverse] at h
  simpa using h

lemma foldl_zero_of_all_zero (L : List Nat) (h : ∀ d ∈ L, d = 0) :
    List.foldl (fun a d => a * 62 + d) 0 L = 0 := by
  induction L with
  | nil => rfl
  | cons d L ih =>
    have hd : d = 0 := h d (List.mem_cons_self d L)
    simp only [List.foldl_cons, hd]
    exact ih (fun x hx => h x (List.mem_cons_of_mem d hx))

lemma dropWhile_head_not {α : Type} (p : α → Bool) :
    ∀ (l : List α) (c : α) (rest : List α), l.dropWhile p = c :: rest → p c = false := by
  intro l
  induction l with
  | nil => intro c rest h; simp [List.dropWhile] at h
  | cons a l ih =>
    intro c rest h
    rw [List.dropWhile_cons] at h
    by_cases ha : p a = true
    · rw [if_pos ha] at h; exact ih c rest h
    · rw [if_neg ha] at h
      obtain ⟨rfl, -⟩ := List.cons.inj h
      exact Bool.not_eq_true _ ▸ ha

lemma getLast?_reverse_cons {α : Type} (a : α) (l : List α) :
    ((a :: l).reverse).getLast? = some a := by
  rw [List.reverse_cons]
  exact List.getLast?_concat _

/-- C4 counterexample: `Decode` rejects the empty string, so the claim
that decoding succeeds on every alphabet string (including the empty
one) is false at `s = ""`. -/
theorem decode_empty_counterexample : Decode "" = none := by decide

/-- C4 (amended).  For every nonempty string over the alphabet whose
base-62 value fits in a `uint64`, `Decode` succeeds with that value and
`Encode (Decode s)` equals `s` with its leading zero characters
stripped (the all-zero string canonicalizing to `"0"`).  The amendment
excludes the empty string, which `Decode` rejects, and strings whose
value overflows 64 bits, where the wrapping accumulator makes the
round-trip fail. -/
theorem base62_decode_alphabet (s : String) (h1 : ¬s.data = [])
    (h2 : ∀ c ∈ s.data, c ∈ base62Charset) (h3 : base62Val s < 2 ^ 64) :
    Decode s = some (base62Val s) ∧ Encode (base62Val s) = stripLeadingZeros s := by
  constructor
  · rw [decode_alphabet_val s h1 h2, Nat.mod_eq_of_lt h3]
  · have hval : base62Val s
        = List.foldl (fun a d => a * 62 + d) 0 (s.data.map charVal) := by
      rw [base62Val, List.foldl_map]
    rcases ht : s.data.dropWhile (fun c => c = '0') with _ | ⟨c0, t'⟩
    · -- the string is all zeros
      have hall : ∀ c ∈ s.data, c = '0' := by
        intro c hc
        have := (List.dropWhile_eq_nil_iff.mp ht) c hc
        exact of_decide_eq_true this
      have hzero : base62Val s = 0 := by
        rw [hval]
        apply foldl_zero_of_all_zero
        intro d hd
        obtain ⟨c, hc, rfl⟩ := List.mem_map.mp hd
        rw [hall c hc]
        decide
      rw [hzero, stripLeadingZeros]
      simp [ht, Encode]
    · -- nonempty remainder `c0 :: t'` after stripping zeros
      have htsub : ∀ c ∈ c0 :: t', c ∈ s.data := by
        intro c hc
        exact (List.dropWhile_sublist (fun c => c = '0')).mem (ht ▸ hc)
      have hsplit : s.data.takeWhile (fun c => c = '0') ++ c0 :: t' = s.data := by
        rw [← ht]; exact List.takeWhile_append_dropWhile _ _
      -- the leading zeros do not contribute to the value
      have hvalt : base62Val s
          = List.foldl (fun a d => a * 62 + d) 0 ((c0 :: t').map charVal) := by
        rw [hval, ← hsplit, List.map_append, List.foldl_append]
        congr 1
        apply foldl_zero_of_all_zero
        intro d hd
        obtain ⟨c, hc, rfl⟩ := List.mem_map.mp hd
        have : c = '0' :=
          of_decide_eq_true (List.mem_takeWhile_imp (p := fun c => decide (c = '0')) hc)
        rw [this]; decide
      -- digits of the value are exactly the digit list, reversed
      have hw1 : ∀ d ∈ ((c0 :: t').map charVal).reverse, d < 62 := by
        intro d hd
        obtain ⟨c, hc, rfl⟩ := List.mem_map.mp (List.mem_reverse.mp hd)
        exact charVal_lt c (h2 c (htsub c hc))
      have hc0 : charVal c0 ≠ 0 := by
        have hp : (fun c => decide (c = '0')) c0 = false :=
          dropWhile_head_not _ s.data c0 t' ht
        have hne : ¬(c0 = '0') := of_decide_eq_false hp
        intro h0
        exact hne ((charVal_zero_iff c0 (h2 c0 (htsub c0 (List.mem_cons_self c0 t')))).mp h0)
      have hrevne : ((c0 :: t').map charVal).reverse ≠ [] := by simp
      have hw2 : ∀ h : ((c0 :: t').map charVal).reverse ≠ [],
          (((c0 :: t').map charVal).reverse).getLast h ≠ 0 := by
        intro h
        have hq := List.getLast?_eq_getLast_of_ne_nil h
        have hq2 : (((c0 :: t').map charVal).reverse).getLast? = some (charVal c0) := by
          rw [List.map_cons]
          exact getLast?_reverse_cons _ _
        have heq : charVal c0 = (((c0 :: t').map charVal).reverse).getLast h :=
          Option.some_inj.mp (hq2.symm.trans hq)
        exact heq ▸ hc0
      have hdig : Nat.digits 62 (base62Val s) = ((c0 :: t').map charVal).reverse := by
        rw [hvalt, valMSB_eq_ofDigits]
        exact Nat.digits_ofDigits 62 (by norm_num) _ hw1 hw2
      have hne0 : base62Val s ≠ 0 := by
        intro h0
        rw [h0, Nat.digits_zero] at hdig
        exact hrevne hdig.symm
      rw [Encode, if_neg hne0, base62Digits_eq, hdig]
      have hmapback : (((c0 :: t').map charVal).reverse.map base62CharOf).reverse
          = c0 :: t' := by
        rw [← List.map_reverse, List.reverse_reverse, List.map_map]
        rw [show (c0 :: t').map (base62CharOf ∘ charVal) = (c0 :: t').map id from
          List.map_congr_left (fun c hc => charOf_charVal c (h2 c (htsub c hc)))]
        exact List.map_id _
      rw [hmapback, stripLeadingZeros]
      simp [ht]

/-- Witness for C4 (amended) at the concrete input "0z". -/
theorem base62_decode_alphabet_witness :
    (¬("0z").data = [] ∧ (∀ c ∈ ("0z").data, c ∈ base62Charset) ∧ base62Val "0z" < 2 ^ 64)
    ∧ Decode "0z" = some (base62Val "0z")
    ∧ Encode (base62Val "0z") = stripLeadingZeros "0z" :=
  ⟨⟨by decide, by decide, by decide⟩,
    base62_decode_alphabet "0z" (by decide) (by decide) (by decide)⟩

/- ===================== Errors and time ===================== -/

/-- Error kinds of the paste service and its collaborators
(`ErrEmptyContent`, `ErrContentTooLarge`, ..., `ErrNoKeysAvailable`,
`ErrPasteDuplicate`). -/
inductive PasteErr where
  | emptyContent
  | contentTooLarge
  | invalidSyntaxType
  | invalidExpiresIn
  | notFound
  | expired
  | noKeysAvailable
  | duplicate
deriving DecidableEq

/-- Instants and durations are integers in nanoseconds, the unit of
Go's `time.Duration`. -/
def nsSecond : Int := 1000000000

def nsMinute : Int := 60 * nsSecond

def nsHour : Int := 60 * nsMinute

def nsDay : Int := 24 * nsHour

/-- Fixed expiry table from the `switch` in `parseExpiration`. -/
def fixedDuration : String → Option Int
  | "10m" => some (10 * nsMinute)
  | "30m" => some (30 * nsMinute)
  | "1h" => some (1 * nsHour)
  | "6h" => some (6 * nsHour)
  | "12h" => some (12 * nsHour)
  | "1d" => some (24 * nsHour)
  | "3d" => some (3 * (24 * nsHour))
  | "1w" => some (7 * (24 * nsHour))
  | "2w" => some (14 * (24 * nsHour))
  | "1M" => some (30 * (24 * nsHour))
  | _ => none

/-- Embedding of `PasteService.parseExpiration`.  The generic duration
parser (Go's `time.ParseDuration` in the `default` branch) is an
external library function and is passed in as `pd`.  `now` is the
`time.Now()` read inside this function.  Returns the optional absolute
expiry instant and the burn-after-read flag. -/
def parseExpiration (pd : String → Option Int) (now : Int) (expiresIn : String) :
    Except PasteErr (Option Int × Bool) :=
  if expiresIn = "" ∨ expiresIn = "never" then .ok (none, false)
  else if expiresIn = "burn" then .ok (none, true)
  else
    match fixedDuration expiresIn with
    | some d => .ok (some (now + d), false)
    | none =>
      match pd expiresIn with
      | some d => .ok (some (now + d), false)
      | none => .error .invalidExpiresIn

/-- Numeric value of a decimal digit character. -/
def digitVal (c : Char) : Nat := c.toNat - 48

/-- Nanoseconds per duration unit letter. -/
def unitNs : Char → Option Int
  | 's' => some nsSecond
  | 'm' => some nsMinute
  | 'h' => some nsHour
  | _ => none

/-- Modelled from the spec: the generic `expires_in` duration grammar of
design §6.2 — one or more groups `N{s|m|h}` concatenated, e.g. `"2h30m"` —
standing in for Go's `time.ParseDuration`, whose implementation is not
part of this repository.  On this common grammar the two agree. -/
def parseDurAux : Nat → List Char → Option Int
  | _, [] => some 0
  | 0, _ => none
  | fuel + 1, cs =>
    let ds := cs.takeWhile Char.isDigit
    let rest := cs.dropWhile Char.isDigit
    if ds.isEmpty then none
    else
      match rest with
      | [] => none
      | u :: rest2 =>
        match unitNs u with
        | none => none
        | some k =>
          match parseDurAux fuel rest2 with
          | none => none
          | some v => some ((ds.foldl (fun a c => a * 10 + digitVal c) 0 : Nat) * k + v)

/-- Modelled from the spec: entry point of the §6.2 duration grammar;
the empty string is not a duration. -/
def parseGoDuration (s : String) : Option Int :=
  if s.data.isEmpty then none else parseDurAux s.data.length s.data

/- ===================== Data model and state ===================== -/

/-- KGS key record (`service.Key`). -/
structure KeyRec where
  key : String
  used : Bool
  createdAt : Int
  usedAt : Int
deriving DecidableEq

/-- Paste metadata record (`model.Paste`). -/
structure Paste where
  shortID : String
  userID : Option String
  contentKey : String
  expiresAt : Option Int
  createdAt : Int
  syntaxType : String
  isPrivate : Bool
  burnAfterRead : Bool
deriving DecidableEq

/-- Embedding of `Paste.IsExpired`: strictly past the deadline
(`time.Now().After(expiresAt)`). -/
def isExpired (p : Paste) (now : Int) : Bool :=
  match p.expiresAt with
  | none => false
  | some e => e < now

/-- Request DTO of `PasteService.CreatePaste`. -/
structure CreateReq where
  content : String
  syntaxType : String
  expiresIn : String
  isPrivate : Bool
deriving DecidableEq

/-- Response DTO of `CreatePaste` (`expires_at` kept as an instant
rather than an RFC3339 string). -/
structure CreateResp where
  shortID : String
  url : String
  expiresAt : Option Int
deriving DecidableEq

/-- Response DTO of `GetPaste` (`created_at` kept as an instant). -/
structure GetResp where
  shortID : String
  content : String
  syntaxType : String
  createdAt : Int
  expiresAt : Option Int
deriving DecidableEq

/-- Combined state of the four storage tiers.  The cache and the blob
store are association lists from short ID to content (the cache entry
also records the TTL it was written with; Redis key namespacing and
gzip compression are invertible wrappers and are elided).  The metadata
index is a list of records; the KGS pool a list of key records. -/
structure St where
  kgs : List KeyRec
  metadata : List Paste
  cache : List (String × String × Int)
  storage : List (String × String)
deriving DecidableEq

def lookupMeta (st : St) (id : String) : Option Paste :=
  st.metadata.find? (fun p => p.shortID = id)

/-- Mongo `DeleteOne` on the unique `short_id` key. -/
def eraseMeta (md : List Paste) (id : String) : List Paste :=
  md.filter (fun p => ¬p.shortID = id)

def lookupCache (cc : List (String × String × Int)) (id : String) : Option String :=
  (cc.find? (fun e => e.1 = id)).map (fun e => e.2.1)

def eraseCache (cc : List (String × String × Int)) (id : String) :
    List (String × String × Int) :=
  cc.filter (fun e => ¬e.1 = id)

/-- Redis `SET` (overwrite). -/
def setCache (cc : List (String × String × Int)) (id content : String) (ttl : Int) :
    List (String × String × Int) :=
  (id, content, ttl) :: eraseCache cc id

def lookupStore (ss : List (String × String)) (id : String) : Option String :=
  (ss.find? (fun e => e.1 = id)).map (fun e => e.2)

def eraseStore (ss : List (String × String)) (id : String) : List (String × String) :=
  ss.filter (fun e => ¬e.1 = id)

/-- S3 `PutObject` (overwrite). -/
def putStore (ss : List (String × String)) (id content : String) : List (String × String) :=
  (id, content) :: eraseStore ss id

/-- Embedding of `Storage.buildKey`. -/
def buildContentKey (id : String) : String := "gisty/" ++ id ++ ".gz"

/-- Embedding of the internal `deletePaste` helper: remove the paste
from cache, then blob store, then metadata. -/
def deletePasteAll (st : St) (id : String) : St :=
  { st with
    cache := eraseCache st.cache id
    storage := eraseStore st.storage id
    metadata := eraseMeta st.metadata id }

/- ===================== KGS ===================== -/

/-- Embedding of `KGS.GetNextKey`: the atomic `FindOneAndUpdate` on
`used = false`, modelled as taking the first unused record in pool
order; `now` is the `used_at` timestamp written by the update.  The
only modelled failure is the empty unused pool (`ErrNoKeysAvailable`). -/
def GetNextKey (now : Int) : List KeyRec → Except PasteErr (String × List KeyRec)
  | [] => .error .noKeysAvailable
  | k :: ks =>
    if k.used then
      match GetNextKey now ks with
      | .error e => .error e
      | .ok (key, ks2) => .ok (key, k :: ks2)
    else
      .ok (k.key, { k with used := true, usedAt := now } :: ks)

/- ===================== Paste service ===================== -/

/-- UTF-8 size in bytes of a character, as counted by Go's `len` on a
string. -/
def charUtf8Size (c : Char) : Nat :=
  if c.toNat < 128 then 1
  else if c.toNat < 2048 then 2
  else if c.toNat < 65536 then 3
  else 4

/-- Byte length of a string (Go `len(content)`). -/
def goLen (s : String) : Nat := s.data.foldl (fun n c => n + charUtf8Size c) 0

/-- `MaxContentSize`: 1 MiB. -/
def maxContentSize : Nat := 1 * 1024 * 1024

/-- `DefaultCacheTTL`: one hour. -/
def defaultCacheTTL : Int := 1 * nsHour

/-- ASCII model of `strings.ToLower` (the whitelist is ASCII-only). -/
def toLowerChar (c : Char) : Char :=
  if 65 ≤ c.toNat ∧ c.toNat ≤ 90 then Char.ofNat (c.toNat + 32) else c

/-- ASCII whitespace, for `strings.TrimSpace`. -/
def isSpaceChar (c : Char) : Bool :=
  c = ' ' ∨ c = '\t' ∨ c = '\n' ∨ c = '\r'

/-- Embedding of `strings.ToLower(strings.TrimSpace(s))` on ASCII data. -/
def normalizeSyntaxType (s : String) : String :=
  String.mk (((s.data.dropWhile isSpaceChar).reverse.dropWhile isSpaceChar).reverse.map
    toLowerChar)

/-- The `ValidSyntaxTypes` whitelist (`""` allowed: default applies). -/
def validSyntaxTypes : List String :=
  ["", "text", "plaintext", "markdown", "json", "xml", "html", "css", "javascript",
   "typescript", "python", "go", "golang", "java", "c", "cpp", "csharp", "ruby", "php",
   "rust", "swift", "kotlin", "scala", "sql", "bash", "shell", "powershell", "yaml",
   "toml", "ini", "dockerfile", "makefile", "nginx", "apache", "lua", "perl", "r",
   "matlab", "latex", "diff", "graphql", "protobuf", "haskell", "elixir", "erlang",
   "clojure", "lisp", "vim", "assembly"]

def isValidSyntaxType (s : String) : Bool := validSyntaxTypes.contains s

/-- Cache TTL computation shared by `CreatePaste` and `GetPaste`:
`min(DefaultCacheTTL, time until expiry)` when the time until expiry is
positive, else the default. -/
def cacheTTLFor (expiresAt : Option Int) (now : Int) : Int :=
  match expiresAt with
  | none => defaultCacheTTL
  | some e =>
    let ttl := e - now
    if 0 < ttl ∧ ttl < defaultCacheTTL then ttl else defaultCacheTTL

/-- Embedding of `PasteService.CreatePaste`.

Injected collaborators: `detect` is the syntax sniffer
(`SyntaxDetector.DetectLanguage`), `pd` the generic duration parser,
`baseURL` the configured base URL.  `nowParse` and `nowCreate` are the
two `time.Now()` reads (inside `parseExpiration` and at record
construction; the latter also stands for the clock reads of
`GetNextKey` and the cache-TTL computation).  `cacheSetOk` says whether
the best-effort cache `Set` (whose error Go swallows) takes effect.
Blob-store write failures are not modelled. -/
def CreatePaste (detect : String → String) (pd : String → Option Int) (baseURL : String)
    (nowParse nowCreate : Int) (cacheSetOk : Bool) (st : St) (req : CreateReq) :
    St × Except PasteErr CreateResp :=
  if goLen req.content = 0 then (st, .error .emptyContent)
  else if maxContentSize < goLen req.content then (st, .error .contentTooLarge)
  else
    let syntax0 := normalizeSyntaxType req.syntaxType
    if ¬isValidSyntaxType syntax0 then (st, .error .invalidSyntaxType)
    else
      let syntaxType := if syntax0 = "" then detect req.content else syntax0
      match parseExpiration pd nowParse req.expiresIn with
      | .error e => (st, .error e)
      | .ok (expiresAt, burnAfterRead) =>
        match GetNextKey nowCreate st.kgs with
        | .error _ => (st, .error .noKeysAvailable)
        | .ok (shortID, kgs2) =>
          let storage2 := putStore st.storage shortID req.content
          if (lookupMeta st shortID).isSome then
            -- duplicate `short_id`: the metadata insert fails and the
            -- just-written blob is deleted best-effort
            ({ st with kgs := kgs2, storage := eraseStore storage2 shortID },
              .error .duplicate)
          else
            let paste : Paste :=
              { shortID := shortID
                userID := none
                contentKey := buildContentKey shortID
                expiresAt := expiresAt
                createdAt := nowCreate
                syntaxType := syntaxType
                isPrivate := req.isPrivate
                burnAfterRead := burnAfterRead }
            let st2 : St :=
              { st with
                kgs := kgs2
                storage := storage2
                metadata := paste :: st.metadata }
            let st3 : St :=
              if burnAfterRead then st2
              else if cacheSetOk then
                { st2 with
                  cache := setCache st2.cache shortID req.content
                    (cacheTTLFor expiresAt nowCreate) }
              else st2
            (st3, .ok { shortID := shortID
                        url := baseURL ++ "/" ++ shortID
                        expiresAt := expiresAt })

/-- Embedding of `PasteService.GetPaste`.

`now` is the clock reading (`IsExpired` and the cache-TTL computation).
`cacheErr` models a failing cache adapter `Get` (treated by the code as
a miss); `cacheSetOk` whether the best-effort cache `Set` takes effect.
The asynchronous purges spawned on the expired and burn paths are
applied synchronously to the state. -/
def GetPaste (now : Int) (cacheErr cacheSetOk : Bool) (st : St) (id : String) :
    St × Except PasteErr GetResp :=
  match lookupMeta st id with
  | none => (st, .error .notFound)
  | some paste =>
    if isExpired paste now then
      (deletePasteAll st id, .error .expired)
    else
      match (if cacheErr then none else lookupCache st.cache id : Option String) with
      | some content =>
        let st2 := if paste.burnAfterRead then deletePasteAll st id else st
        (st2, .ok { shortID := paste.shortID
                    content := content
                    syntaxType := paste.syntaxType
                    createdAt := paste.createdAt
                    expiresAt := paste.expiresAt })
      | none =>
        match lookupStore st.storage id with
        | none => (st, .error .notFound)
        | some content =>
          let st2 :=
            if ¬paste.burnAfterRead ∧ cacheSetOk then
              { st with
                cache := setCache st.cache id content
                  (cacheTTLFor paste.expiresAt now) }
            else st
          let st3 := if paste.burnAfterRead then deletePasteAll st2 id else st2
          (st3, .ok { shortID := paste.shortID
                      content := content
                      syntaxType := paste.syntaxType
                      createdAt := paste.createdAt
                      expiresAt := paste.expiresAt })

/- ===================== C8: expires_in resolution ===================== -/

/-- C8.  `expires_in` resolution: `""` and `"never"` yield no expiry and
no burn; `"burn"` yields burn-after-read with no time expiry; each
literal token maps to its fixed duration (with `"1M"` meaning 30 days)
added to the current time; any other string resolves through the
generic duration parser, `InvalidExpiresIn` exactly when that parse
fails. -/
theorem parseExpiration_spec (pd : String → Option Int) (now : Int) :
    parseExpiration pd now "" = .ok (none, false)
    ∧ parseExpiration pd now "never" = .ok (none, false)
    ∧ parseExpiration pd now "burn" = .ok (none, true)
    ∧ parseExpiration pd now "10m" = .ok (some (now + 10 * nsMinute), false)
    ∧ parseExpiration pd now "30m" = .ok (some (now + 30 * nsMinute), false)
    ∧ parseExpiration pd now "1h" = .ok (some (now + 1 * nsHour), false)
    ∧ parseExpiration pd now "6h" = .ok (some (now + 6 * nsHour), false)
    ∧ parseExpiration pd now "12h" = .ok (some (now + 12 * nsHour), false)
    ∧ parseExpiration pd now "1d" = .ok (some (now + 24 * nsHour), false)
    ∧ parseExpiration pd now "3d" = .ok (some (now + 3 * (24 * nsHour)), false)
    ∧ parseExpiration pd now "1w" = .ok (some (now + 7 * (24 * nsHour)), false)
    ∧ parseExpiration pd now "2w" = .ok (some (now + 14 * (24 * nsHour)), false)
    ∧ parseExpiration pd now "1M" = .ok (some (now + 30 * (24 * nsHour)), false)
    ∧ (∀ s, ¬s = "" → ¬s = "never" → ¬s = "burn" → fixedDuration s = none →
        (∀ d, pd s = some d → parseExpiration pd now s = .ok (some (now + d), false))
        ∧ (pd s = none → parseExpiration pd now s = .error .invalidExpiresIn)) := by
  refine ⟨rfl, rfl, rfl, rfl, rfl, rfl, rfl, rfl, rfl, rfl, rfl, rfl, rfl, ?_⟩
  intro s h1 h2 h3 h4
  constructor
  · intro d hd
    simp [parseExpiration, h1, h2, h3, h4, hd]
  · intro hd
    simp [parseExpiration, h1, h2, h3, h4, hd]

/-- Witness for C8: a garbage string resolves to `InvalidExpiresIn`. -/
theorem parseExpiration_spec_witness :
    parseExpiration parseGoDuration 0 "zz" = .error .invalidExpiresIn :=
  ((parseExpiration_spec parseGoDuration 0).2.2.2.2.2.2.2.2.2.2.2.2.2 "zz"
    (by decide) (by decide) (by decide) (by decide)).2 (by decide)

/- ===================== C5: KGS reserve semantics ===================== -/

instance {ε α : Type} [DecidableEq ε] [DecidableEq α] : DecidableEq (Except ε α) :=
  fun x y =>
    match x, y with
    | .error a, .error b => decidable_of_iff (a = b) (by simp)
    | .error _, .ok _ => isFalse (by simp)
    | .ok _, .error _ => isFalse (by simp)
    | .ok a, .ok b => decidable_of_iff (a = b) (by simp)

lemma getNextKey_error_eq (now : Int) :
    ∀ (ks : List KeyRec) (e : PasteErr),
      GetNextKey now ks = .error e → e = .noKeysAvailable := by
  intro ks
  induction ks with
  | nil =>
    intro e h
    simp [GetNextKey] at h
    exact h.symm
  | cons k ks ih =>
    intro e h
    rw [GetNextKey] at h
    by_cases hu : k.used = true
    · rw [if_pos hu] at h
      cases hg : GetNextKey now ks with
      | error e2 =>
        rw [hg] at h
        simp at h
        exact h ▸ ih e2 hg
      | ok v => rw [hg] at h; simp at h
    · rw [if_neg hu] at h
      simp at h

lemma getNextKey_spec_aux (now : Int) (ks : List KeyRec) :
    (GetNextKey now ks = .error .noKeysAvailable ↔ ∀ k ∈ ks, k.used = true)
    ∧ (∀ key ks2, GetNextKey now ks = .ok (key, ks2) →
        ∃ l1 r l2, ks = l1 ++ r :: l2 ∧ (∀ k ∈ l1, k.used = true)
          ∧ r.used = false ∧ key = r.key
          ∧ ks2 = l1 ++ { r with used := true, usedAt := now } :: l2) := by
  induction ks with
  | nil =>
    constructor
    · simp [GetNextKey]
    · intro key ks2 h
      simp [GetNextKey] at h
  | cons k ks ih =>
    by_cases hu : k.used = true
    · constructor
      · rw [GetNextKey, if_pos hu]
        cases hg : GetNextKey now ks with
        | error e2 =>
          have he2 := getNextKey_error_eq now ks e2 hg
          subst he2
          simp only [Except.error.injEq]
          constructor
          · intro _
            intro x hx
            rcases List.mem_cons.mp hx with rfl | hx2
            · exact hu
            · exact (ih.1.mp hg) x hx2
          · intro _; trivial
        | ok v =>
          simp only [reduceCtorEq, false_iff]
          intro hall
          have : GetNextKey now ks = .error .noKeysAvailable :=
            ih.1.mpr (fun x hx => hall x (List.mem_cons_of_mem k hx))
          rw [hg] at this
          exact absurd this (by simp)
      · intro key ks2 h
        rw [GetNextKey, if_pos hu] at h
        cases hg : GetNextKey now ks with
        | error e2 => rw [hg] at h; simp at h
        | ok v =>
          rw [hg] at h
          obtain ⟨key2, ks3⟩ := v
          simp only [Except.ok.injEq, Prod.mk.injEq] at h
          obtain ⟨rfl, rfl⟩ := h
          obtain ⟨l1, r, l2, hks, hl1, hr, hkey, hks3⟩ := ih.2 key2 ks3 hg
          exact ⟨k :: l1, r, l2, by rw [hks, List.cons_append],
            fun x hx => (List.mem_cons.mp hx).elim (fun hxk => hxk ▸ hu) (hl1 x),
            hr, hkey, by rw [hks3, List.cons_append]⟩
    · constructor
      · rw [GetNextKey, if_neg hu]
        simp only [reduceCtorEq, false_iff]
        intro hall
        exact hu (hall k (List.mem_cons_self k ks))
      · intro key ks2 h
        rw [GetNextKey, if_neg hu] at h
        simp only [Except.ok.injEq, Prod.mk.injEq] at h
        obtain ⟨rfl, rfl⟩ := h
        exact ⟨[], k, ks, rfl, by simp, by simpa using hu, rfl, rfl⟩

/-- C5.  KGS reserve: `GetNextKey` fails exactly when the unused pool is
empty, returning `NoKeysAvailable` (and no pool change); on success it
selects a record with `used = false`, marks exactly that record
`used = true` with `used_at = now`, leaves all others intact, and
returns that record's key string. -/
theorem kgs_getNextKey_spec (now : Int) (ks : List KeyRec) :
    (GetNextKey now ks = .error .noKeysAvailable ↔ ∀ k ∈ ks, k.used = true)
    ∧ (∀ key ks2, GetNextKey now ks = .ok (key, ks2) →
        ∃ l1 r l2, ks = l1 ++ r :: l2 ∧ (∀ k ∈ l1, k.used = true)
          ∧ r.used = false ∧ key = r.key
          ∧ ks2 = l1 ++ { r with used := true, usedAt := now } :: l2) :=
  getNextKey_spec_aux now ks

lemma getNextKey_ok_decomp (now : Int) (ks : List KeyRec) (key : String)
    (ks2 : List KeyRec) (h : GetNextKey now ks = .ok (key, ks2)) :
    ∃ l1 r l2, ks = l1 ++ r :: l2 ∧ (∀ k ∈ l1, k.used = true)
      ∧ r.used = false ∧ key = r.key
      ∧ ks2 = l1 ++ { r with used := true, usedAt := now } :: l2 :=
  (getNextKey_spec_aux now ks).2 key ks2 h

/-- Demo pool for the C5 witness: one used key, one unused. -/
def kgsDemo : List KeyRec := [⟨"k1", true, 0, 0⟩, ⟨"k2", false, 0, 0⟩]

/-- Witness for C5: reserving from the demo pool marks "k2" used at
time 7. -/
theorem kgs_getNextKey_spec_witness :
    ∃ l1 r l2, kgsDemo = l1 ++ r :: l2 ∧ (∀ k ∈ l1, k.used = true)
      ∧ r.used = false ∧ "k2" = r.key
      ∧ [⟨"k1", true, 0, 0⟩, ⟨"k2", true, 0, 7⟩]
          = l1 ++ { r with used := true, usedAt := 7 } :: l2 :=
  (kgs_getNextKey_spec 7 kgsDemo).2 "k2" [⟨"k1", true, 0, 0⟩, ⟨"k2", true, 0, 7⟩]
    (by decide)

/- ===================== C10: cache failures never fail a read ============== -/

/-- C10.  For a valid, unexpired metadata record with a present blob, a
failing cache `Get` is treated exactly as a miss: `GetPaste` falls back
to the blob store and still returns the content; the cache error is
never surfaced. -/
theorem getPaste_cache_error_fallback (now : Int) (cacheSetOk : Bool) (st : St)
    (id : String) (p : Paste) (content : String)
    (hm : lookupMeta st id = some p) (hexp : isExpired p now = false)
    (hs : lookupStore st.storage id = some content) :
    (GetPaste now true cacheSetOk st id).2
      = .ok { shortID := p.shortID, content := content, syntaxType := p.syntaxType,
              createdAt := p.createdAt, expiresAt := p.expiresAt } := by
  rw [GetPaste, hm]
  simp only [hexp, Bool.false_eq_true, if_false, if_true, hs]

/-- Demo paste and state shared by the read-path witnesses: one
non-burn paste "a" expiring at instant 5, blob present, cache empty. -/
def demoPaste : Paste :=
  { shortID := "a", userID := none, contentKey := "gisty/a.gz", expiresAt := some 5,
    createdAt := 0, syntaxType := "plaintext", isPrivate := false,
    burnAfterRead := false }

def demoSt : St :=
  { kgs := [], metadata := [demoPaste], cache := [], storage := [("a", "hello")] }

/-- Witness for C10: with the cache erroring, the demo paste is still
served from the blob store. -/
theorem getPaste_cache_error_fallback_witness :
    (GetPaste 0 true true demoSt "a").2
      = .ok { shortID := "a", content := "hello", syntaxType := "plaintext",
              createdAt := 0, expiresAt := some 5 } :=
  getPaste_cache_error_fallback 0 true demoSt "a" demoPaste "hello"
    (by decide) (by decide) (by decide)

/- ===================== C3: read-path expiry ===================== -/

/-- C3 counterexample: `IsExpired` uses a strict comparison, so a read
at the exact instant `expires_at = now` (here both 5) returns the
content instead of the claimed `Expired` error. -/
theorem getPaste_boundary_counterexample :
    (GetPaste 5 false true demoSt "a").2
      = .ok { shortID := "a", content := "hello", syntaxType := "plaintext",
              createdAt := 0, expiresAt := some 5 } := by
  decide

/-- C3 (amended).  For a stored paste with `expires_at` present and
strictly less than `now`, `GetPaste` purges the paste across cache,
blob store and metadata and returns `Expired`; a read at
`expires_at = now` or earlier is never rejected as expired.  (The
amendment replaces the claimed `expires_at ≤ now` rejection boundary by
the strict `expires_at < now` that `Paste.IsExpired` implements.) -/
theorem getPaste_expiry_strict (now : Int) (cacheErr cacheSetOk : Bool) (st : St)
    (id : String) (p : Paste) (e : Int)
    (hm : lookupMeta st id = some p) (he : p.expiresAt = some e) :
    (e < now →
      GetPaste now cacheErr cacheSetOk st id = (deletePasteAll st id, .error .expired))
    ∧ (now ≤ e → (GetPaste now cacheErr cacheSetOk st id).2 ≠ .error .expired) := by
  constructor
  · intro hlt
    have hx : isExpired p now = true := by simp [isExpired, he, hlt]
    rw [GetPaste, hm]
    simp [hx]
  · intro hge
    have hx : isExpired p now = false := by
      simp only [isExpired, he, decide_eq_false_iff_not]
      omega
    rw [GetPaste, hm]
    simp only [hx, Bool.false_eq_true, if_false]
    split
    · split <;> simp
    · split <;> simp

/-- Witness for C3 (amended): reading the demo paste at instant 6
(strictly past its expiry 5) purges it and returns `Expired`. -/
theorem getPaste_expiry_strict_witness :
    GetPaste 6 false true demoSt "a" = (deletePasteAll demoSt "a", .error .expired) :=
  (getPaste_expiry_strict 6 false true demoSt "a" demoPaste 5
    (by decide) (by decide)).1 (by decide)

/- ===================== C2: invariant I4 ===================== -/

/-- The duration that `parseExpiration` resolves for a time-bound
`expires_in` value (`none` for the no-expiry and burn tokens). -/
def resolvedDuration (pd : String → Option Int) (s : String) : Option Int :=
  if s = "" ∨ s = "never" ∨ s = "burn" then none
  else
    match fixedDuration s with
    | some d => some d
    | none => pd s

lemma parseExpiration_resolved (pd : String → Option Int) (now : Int) (s : String)
    (d : Int) (hd : resolvedDuration pd s = some d) :
    parseExpiration pd now s = .ok (some (now + d), false) := by
  rw [resolvedDuration] at hd
  by_cases h1 : s = "" ∨ s = "never" ∨ s = "burn"
  · rw [if_pos h1] at hd; exact absurd hd (by simp)
  · rw [if_neg h1] at hd
    push_neg at h1
    obtain ⟨hne, hnn, hnb⟩ := h1
    rw [parseExpiration, if_neg (by simp [hne, hnn]), if_neg hnb]
    cases hf : fixedDuration s with
    | some d2 =>
      rw [hf] at hd
      simp only [Option.some.injEq] at hd
      simp [hd]
    | none =>
      rw [hf] at hd
      have hd2 : pd s = some d := hd
      simp [hd2]

/-- Boolean check from the claim's wording: does a record satisfy invariant
I4 (`expires_at`, when set, strictly after `created_at`)? -/
def i4Check (p : Paste) : Bool :=
  match p.expiresAt with
  | none => true
  | some e => p.createdAt < e

def c2St : St := { kgs := [⟨"abc123", false, 0, 0⟩], metadata := [], cache := [], storage := [] }

def c2Req : CreateReq :=
  { content := "hi", syntaxType := "plaintext", expiresIn := "0s", isPrivate := false }

/-- C2 counterexample: `expires_in = "0s"` passes the duration parser
with duration zero, so `CreatePaste` succeeds and stores a record whose
`expires_at` equals its `created_at` — not strictly after it. -/
theorem createPaste_i4_counterexample :
    ((CreatePaste (fun _ => "plaintext") parseGoDuration "u" 0 0 true c2St c2Req).2.isOk
        = true)
    ∧ ((CreatePaste (fun _ => "plaintext") parseGoDuration "u" 0 0 true c2St
        c2Req).1.metadata.all i4Check = false) := by
  decide

/-- C2 (amended).  Every record `CreatePaste` adds with `expires_at`
set has `expires_at` strictly after `created_at`, provided the resolved
duration strictly exceeds the time elapsed between the two clock
readings of the create path (in particular, any positive duration when
the two readings coincide).  The amendment adds this positivity
condition, without which — e.g. a parsed duration of zero — the two
instants coincide. -/
theorem createPaste_expiry_after_creation
    (detect : String → String) (pd : String → Option Int) (baseURL : String)
    (nowParse nowCreate : Int) (cacheSetOk : Bool) (st : St) (req : CreateReq)
    (d : Int) (p : Paste)
    (hd : resolvedDuration pd req.expiresIn = some d)
    (helapsed : nowCreate - nowParse < d)
    (hp : p ∈ (CreatePaste detect pd baseURL nowParse nowCreate cacheSetOk st
      req).1.metadata)
    (hnew : p ∉ st.metadata) :
    ∃ e, p.expiresAt = some e ∧ p.createdAt < e := by
  rw [CreatePaste] at hp
  rw [parseExpiration_resolved pd nowParse req.expiresIn d hd] at hp
  by_cases h0 : goLen req.content = 0
  · rw [if_pos h0] at hp; exact absurd hp hnew
  rw [if_neg h0] at hp
  by_cases h1 : maxContentSize < goLen req.content
  · rw [if_pos h1] at hp; exact absurd hp hnew
  rw [if_neg h1] at hp
  by_cases h2 : ¬isValidSyntaxType (normalizeSyntaxType req.syntaxType) = true
  · rw [if_pos h2] at hp; exact absurd hp hnew
  rw [if_neg h2] at hp
  simp only at hp
  cases hg : GetNextKey nowCreate st.kgs with
  | error e2 =>
    rw [hg] at hp
    exact absurd hp hnew
  | ok v =>
    obtain ⟨sid, kgs2⟩ := v
    rw [hg] at hp
    simp only at hp
    by_cases hdup : (lookupMeta st sid).isSome = true
    · rw [if_pos hdup] at hp
      exact absurd hp hnew
    · rw [if_neg hdup] at hp
      simp only [Bool.false_eq_true, if_false] at hp
      split at hp <;>
      · rcases List.mem_cons.mp hp with rfl | hmem
        · exact ⟨nowParse + d, rfl, show nowCreate < nowParse + d by omega⟩
        · exact absurd hmem hnew

def c2ReqW : CreateReq :=
  { content := "hi", syntaxType := "plaintext", expiresIn := "10m", isPrivate := false }

/-- The record the witness create produces. -/
def c2PasteW : Paste :=
  { shortID := "abc123", userID := none, contentKey := "gisty/abc123.gz",
    expiresAt := some 600000000000, createdAt := 0, syntaxType := "plaintext",
    isPrivate := false, burnAfterRead := false }

/-- Witness for C2 (amended): a "10m" create at coinciding clock
readings yields a record expiring strictly after creation. -/
theorem createPaste_expiry_after_creation_witness :
    ∃ e, c2PasteW.expiresAt = some e ∧ c2PasteW.createdAt < e :=
  createPaste_expiry_after_creation (fun _ => "plaintext") parseGoDuration "u" 0 0
    true c2St c2ReqW 600000000000 c2PasteW (by decide) (by decide) (by decide)
    (by decide)

/- ===================== C9: content validation boundary ===================== -/

lemma except_isOk_exists {ε α : Type} {x : Except ε α} (h : x.isOk = true) :
    ∃ a, x = .ok a := by
  cases x with
  | error e => simp [Except.isOk, Except.toBool] at h
  | ok a => exact ⟨a, rfl⟩

/-- C9.  `CreatePaste` rejects empty content with `EmptyContent` and
content over 1 MiB with `ContentTooLarge`, in both cases leaving the
entire state (KGS pool, blob store, metadata, cache) unchanged — the
checks run before any key reservation or write.  Content of exactly
1 MiB passes validation, and with an otherwise valid request (whitelist
syntax type, parsable expiry, a key available and fresh) the create
succeeds. -/
theorem createPaste_content_validation
    (detect : String → String) (pd : String → Option Int) (baseURL : String)
    (nowParse nowCreate : Int) (cacheSetOk : Bool) (st : St) (req : CreateReq) :
    (goLen req.content = 0 →
      CreatePaste detect pd baseURL nowParse nowCreate cacheSetOk st req
        = (st, .error .emptyContent))
    ∧ (maxContentSize < goLen req.content →
      CreatePaste detect pd baseURL nowParse nowCreate cacheSetOk st req
        = (st, .error .contentTooLarge))
    ∧ (goLen req.content = maxContentSize →
      isValidSyntaxType (normalizeSyntaxType req.syntaxType) = true →
      (parseExpiration pd nowParse req.expiresIn).isOk = true →
      (∀ key ks2, GetNextKey nowCreate st.kgs = .ok (key, ks2) →
        lookupMeta st key = none) →
      (GetNextKey nowCreate st.kgs).isOk = true →
      (CreatePaste detect pd baseURL nowParse nowCreate cacheSetOk st req).2.isOk
        = true) := by
  refine ⟨?_, ?_, ?_⟩
  · intro h0
    rw [CreatePaste, if_pos h0]
  · intro h1
    have h0 : ¬goLen req.content = 0 := by
      have : 0 < maxContentSize := by norm_num [maxContentSize]
      omega
    rw [CreatePaste, if_neg h0, if_pos h1]
  · intro hlen hsyn hpe hfresh hkgs
    have h0 : ¬goLen req.content = 0 := by
      rw [hlen]; norm_num [maxContentSize]
    have h1 : ¬maxContentSize < goLen req.content := by omega
    rw [CreatePaste, if_neg h0, if_neg h1, if_neg (by simp [hsyn])]
    obtain ⟨eb, heb⟩ := except_isOk_exists hpe
    obtain ⟨expiresAt, burn⟩ := eb
    rw [heb]
    obtain ⟨kv, hkv⟩ := except_isOk_exists hkgs
    obtain ⟨key, ks2⟩ := kv
    rw [hkv]
    simp only
    rw [if_neg (by rw [hfresh key ks2 hkv]; simp)]
    split
    · rfl
    · split <;> rfl

/-- Content of exactly 1 MiB for the C9 witness. -/
def c9BigContent : String := String.mk (List.replicate 1048576 'a')

def c9St : St := { kgs := [⟨"abc123", false, 0, 0⟩], metadata := [], cache := [], storage := [] }

def c9Req : CreateReq :=
  { content := c9BigContent, syntaxType := "plaintext", expiresIn := "never",
    isPrivate := false }

lemma foldl_size_replicate (n : Nat) :
    ∀ acc : Nat,
      List.foldl (fun n c => n + charUtf8Size c) acc (List.replicate n 'a') = acc + n := by
  induction n with
  | zero => intro acc; simp
  | succ m ih =>
    intro acc
    rw [List.replicate_succ, List.foldl_cons, ih]
    have : charUtf8Size 'a' = 1 := by decide
    omega

lemma goLen_c9BigContent : goLen c9BigContent = maxContentSize := by
  show List.foldl (fun n c => n + charUtf8Size c) 0 (List.replicate 1048576 'a')
    = maxContentSize
  rw [foldl_size_replicate 1048576 0]
  norm_num [maxContentSize]

/-- Witness for C9: the 1 MiB request is accepted. -/
theorem createPaste_content_validation_witness :
    goLen c9BigContent = maxContentSize
    ∧ (CreatePaste (fun _ => "plaintext") (fun _ => none) "u" 0 0 true c9St
        c9Req).2.isOk = true :=
  ⟨goLen_c9BigContent,
    (createPaste_content_validation (fun _ => "plaintext") (fun _ => none) "u" 0 0 true
      c9St c9Req).2.2 goLen_c9BigContent (by decide) (by decide)
      (by
        intro key ks2 h
        have hg : GetNextKey 0 c9St.kgs = .ok ("abc123", [⟨"abc123", true, 0, 0⟩]) := by
          decide
        rw [hg] at h
        obtain ⟨hk, -⟩ := Prod.mk.inj (Except.ok.inj h)
        rw [← hk]
        decide)
      (by decide)⟩

/- ===================== C6: burn pastes are never cached ===================== -/

/-- Keys of the unused records of a KGS pool. -/
def unusedKeyList (ks : List KeyRec) : List String :=
  (ks.filter (fun k => !k.used)).map KeyRec.key

/-- K-invariants the KGS maintains: the unused keys are pairwise
distinct and fresh — absent from the metadata index and the cache. -/
def FreshPool (st : St) : Prop :=
  (unusedKeyList st.kgs).Nodup
  ∧ ∀ k ∈ unusedKeyList st.kgs, lookupMeta st k = none ∧ lookupCache st.cache k = none

/-- Uniqueness of `short_id` across the metadata index (invariant I1,
enforced by the unique Mongo index). -/
def MetaNodup (st : St) : Prop := (st.metadata.map Paste.shortID).Nodup

/-- Invariant I5 as a state predicate: no burn-after-read record has a
cache entry under its short ID. -/
def BurnNotCached (st : St) : Prop :=
  ∀ p ∈ st.metadata, p.burnAfterRead = true → lookupCache st.cache p.shortID = none

/-- Conjunction of the state invariants preserved by the service. -/
def Inv (st : St) : Prop := FreshPool st ∧ MetaNodup st ∧ BurnNotCached st

/-- A client-visible operation: one `CreatePaste` or one `GetPaste`
call, with its clock readings and cache-adapter oracles. -/
inductive Op where
  | create (req : CreateReq) (nowParse nowCreate : Int) (cacheSetOk : Bool)
  | read (id : String) (now : Int) (cacheErr cacheSetOk : Bool)

/-- State after one operation. -/
def execOp (detect : String → String) (pd : String → Option Int) (baseURL : String)
    (st : St) : Op → St
  | .create req np nc cok => (CreatePaste detect pd baseURL np nc cok st req).1
  | .read id now ce cok => (GetPaste now ce cok st id).1

/-- State after a sequence of operations. -/
def execOps (detect : String → String) (pd : String → Option Int) (baseURL : String)
    (st : St) : List Op → St
  | [] => st
  | op :: ops => execOps detect pd baseURL (execOp detect pd baseURL st op) ops

lemma find?_filter_ne {α : Type} (keyOf : α → String) (l : List α) (id k : String) :
    (l.filter (fun e => ¬keyOf e = id)).find? (fun e => keyOf e = k)
      = if k = id then none else l.find? (fun e => keyOf e = k) := by
  induction l with
  | nil =>
    simp only [List.filter_nil, List.find?_nil]
    split <;> rfl
  | cons e l ih =>
    rw [List.filter_cons]
    by_cases hei : keyOf e = id
    · rw [if_neg (by simp [hei]), ih]
      by_cases hk : k = id
      · rw [if_pos hk, if_pos hk]
      · rw [if_neg hk, if_neg hk, List.find?_cons_of_neg _ (by
          simp only [hei, decide_eq_true_eq]
          exact fun h => hk h.symm)]
    · rw [if_pos (by simp [hei])]
      by_cases hek : keyOf e = k
      · have hk : ¬k = id := fun h => hei (hek.trans h)
        rw [if_neg hk, List.find?_cons_of_pos _ (by simp [hek]),
          List.find?_cons_of_pos _ (by simp [hek])]
      · rw [List.find?_cons_of_neg _ (by simp [hek]), ih]
        by_cases hk : k = id
        · rw [if_pos hk, if_pos hk]
        · rw [if_neg hk, if_neg hk, List.find?_cons_of_neg _ (by simp [hek])]

lemma lookupCache_erase (cc : List (String × String × Int)) (id k : String) :
    lookupCache (eraseCache cc id) k = if k = id then none else lookupCache cc k := by
  unfold lookupCache eraseCache
  simp only [find?_filter_ne (fun e : String × String × Int => e.1)]
  split <;> rfl

lemma lookupCache_set (cc : List (String × String × Int)) (id v : String) (k1 : Int)
    (k : String) :
    lookupCache (setCache cc id v k1) k = if k = id then some v else lookupCache cc k := by
  unfold setCache
  by_cases hk : k = id
  · rw [if_pos hk, lookupCache, List.find?_cons_of_pos _ (by simp [hk])]
    rfl
  · rw [if_neg hk, lookupCache,
      List.find?_cons_of_neg _ (by
        simp only [decide_eq_true_eq]
        exact fun h => hk h.symm)]
    rw [show ((eraseCache cc id).find? (fun e => e.1 = k)).map (fun e => e.2.1)
        = lookupCache (eraseCache cc id) k from rfl]
    rw [lookupCache_erase, if_neg hk]

lemma lookupStore_erase (ss : List (String × String)) (id k : String) :
    lookupStore (eraseStore ss id) k = if k = id then none else lookupStore ss k := by
  unfold lookupStore eraseStore
  simp only [find?_filter_ne (fun e : String × String => e.1)]
  split <;> rfl

lemma metaFind_erase (md : List Paste) (id k : String) :
    (eraseMeta md id).find? (fun p => p.shortID = k)
      = if k = id then none else md.find? (fun p => p.shortID = k) := by
  unfold eraseMeta
  simp only [find?_filter_ne (fun p : Paste => p.shortID)]

lemma getNextKey_unusedKeys (now : Int) (ks : List KeyRec) (key : String)
    (ks2 : List KeyRec) (h : GetNextKey now ks = .ok (key, ks2)) :
    unusedKeyList ks = key :: unusedKeyList ks2 := by
  obtain ⟨l1, r, l2, hks, hl1, hr, hkey, hks2⟩ := getNextKey_ok_decomp now ks key ks2 h
  subst hks hks2 hkey
  unfold unusedKeyList
  rw [List.filter_append, List.filter_append, List.filter_cons, List.filter_cons]
  have hl1f : l1.filter (fun k => !k.used) = [] := by
    rw [List.filter_eq_nil_iff]
    intro k hk
    simp [hl1 k hk]
  rw [hl1f]
  simp [hr]

lemma inv_deletePasteAll (st : St) (id : String) (h : Inv st) :
    Inv (deletePasteAll st id) := by
  obtain ⟨⟨hnd, hfresh⟩, hmnd, hburn⟩ := h
  refine ⟨⟨hnd, ?_⟩, ?_, ?_⟩
  · intro k hk
    obtain ⟨hm, hc⟩ := hfresh k hk
    constructor
    · show (eraseMeta st.metadata id).find? (fun p => p.shortID = k) = none
      rw [metaFind_erase]
      split
      · rfl
      · exact hm
    · show lookupCache (eraseCache st.cache id) k = none
      rw [lookupCache_erase]
      split
      · rfl
      · exact hc
  · exact hmnd.sublist ((List.filter_sublist st.metadata).map Paste.shortID)
  · intro p hp hb
    have hp2 : p ∈ st.metadata := List.mem_of_mem_filter hp
    show lookupCache (eraseCache st.cache id) p.shortID = none
    rw [lookupCache_erase]
    split
    · rfl
    · exact hburn p hp2 hb

lemma metaFind_cons_none {q : Paste} {md : List Paste} {k : String}
    (h1 : ¬q.shortID = k) (h2 : md.find? (fun p => p.shortID = k) = none) :
    (q :: md).find? (fun p => p.shortID = k) = none := by
  rw [List.find?_cons_of_neg _ (by simpa using h1)]
  exact h2

lemma metaNodup_cons {q : Paste} {md : List Paste}
    (hnotin : ∀ p ∈ md, ¬p.shortID = q.shortID)
    (h : (md.map Paste.shortID).Nodup) : ((q :: md).map Paste.shortID).Nodup := by
  rw [List.map_cons]
  refine List.nodup_cons.mpr ⟨?_, h⟩
  intro hmem
  obtain ⟨p, hp, hpe⟩ := List.mem_map.mp hmem
  exact hnotin p hp hpe

lemma inv_createPaste (detect : String → String) (pd : String → Option Int)
    (baseURL : String) (np nc : Int) (cok : Bool) (st : St) (req : CreateReq)
    (h : Inv st) :
    Inv ((CreatePaste detect pd baseURL np nc cok st req).1) := by
  obtain ⟨⟨hnd, hfresh⟩, hmnd, hburn⟩ := h
  have hInv : Inv st := ⟨⟨hnd, hfresh⟩, hmnd, hburn⟩
  rw [CreatePaste]
  by_cases h0 : goLen req.content = 0
  · rw [if_pos h0]; exact hInv
  rw [if_neg h0]
  by_cases h1 : maxContentSize < goLen req.content
  · rw [if_pos h1]; exact hInv
  rw [if_neg h1]
  by_cases h2 : ¬isValidSyntaxType (normalizeSyntaxType req.syntaxType) = true
  · rw [if_pos h2]; exact hInv
  rw [if_neg h2]
  cases hpe : parseExpiration pd np req.expiresIn with
  | error e => exact hInv
  | ok eb =>
    obtain ⟨expiresAt, burn⟩ := eb
    simp only
    cases hg : GetNextKey nc st.kgs with
    | error e => exact hInv
    | ok kv =>
      obtain ⟨shortID, kgs2⟩ := kv
      simp only
      have hUK := getNextKey_unusedKeys nc st.kgs shortID kgs2 hg
      have hndc : (shortID :: unusedKeyList kgs2).Nodup := hUK ▸ hnd
      have hnd2 : (unusedKeyList kgs2).Nodup := (List.nodup_cons.mp hndc).2
      have hheadnotin : shortID ∉ unusedKeyList kgs2 := (List.nodup_cons.mp hndc).1
      have hmemUK : shortID ∈ unusedKeyList st.kgs := by
        rw [hUK]; exact List.mem_cons_self _ _
      have hK2 : ∀ k ∈ unusedKeyList kgs2,
          lookupMeta st k = none ∧ lookupCache st.cache k = none := by
        intro k hk
        exact hfresh k (by rw [hUK]; exact List.mem_cons_of_mem _ hk)
      have hknotid : ∀ k ∈ unusedKeyList kgs2, ¬k = shortID := by
        intro k hk hkeq
        exact hheadnotin (hkeq ▸ hk)
      by_cases hdup : (lookupMeta st shortID).isSome = true
      · rw [if_pos hdup]
        exact ⟨⟨hnd2, fun k hk => hK2 k hk⟩, hmnd, hburn⟩
      · rw [if_neg hdup]
        have hmetaNone : lookupMeta st shortID = none :=
          Option.not_isSome_iff_eq_none.mp hdup
        have hnotin_meta : ∀ p ∈ st.metadata, ¬p.shortID = shortID := by
          intro p hp
          have := List.find?_eq_none.mp hmetaNone p hp
          simpa using this
        have hcacheNone : lookupCache st.cache shortID = none :=
          (hfresh shortID hmemUK).2
        by_cases hb : burn = true
        · rw [if_pos hb]
          refine ⟨⟨hnd2, ?_⟩, ?_, ?_⟩
          · intro k hk
            exact ⟨metaFind_cons_none (fun hh => hknotid k hk hh.symm) (hK2 k hk).1,
              (hK2 k hk).2⟩
          · exact metaNodup_cons (fun p hp => hnotin_meta p hp) hmnd
          · intro p hp hbr
            rcases List.mem_cons.mp hp with rfl | hmem
            · exact hcacheNone
            · exact hburn p hmem hbr
        · rw [if_neg hb]
          by_cases hcok : cok = true
          · rw [if_pos hcok]
            refine ⟨⟨hnd2, ?_⟩, ?_, ?_⟩
            · intro k hk
              refine ⟨metaFind_cons_none (fun hh => hknotid k hk hh.symm) (hK2 k hk).1,
                ?_⟩
              show lookupCache (setCache st.cache shortID req.content _) k = none
              rw [lookupCache_set, if_neg (hknotid k hk)]
              exact (hK2 k hk).2
            · exact metaNodup_cons (fun p hp => hnotin_meta p hp) hmnd
            · intro p hp hbr
              rcases List.mem_cons.mp hp with rfl | hmem
              · exact absurd hbr hb
              · show lookupCache (setCache st.cache shortID req.content _) p.shortID
                  = none
                rw [lookupCache_set, if_neg (hnotin_meta p hmem)]
                exact hburn p hmem hbr
          · rw [if_neg hcok]
            refine ⟨⟨hnd2, ?_⟩, ?_, ?_⟩
            · intro k hk
              exact ⟨metaFind_cons_none (fun hh => hknotid k hk hh.symm) (hK2 k hk).1,
                (hK2 k hk).2⟩
            · exact metaNodup_cons (fun p hp => hnotin_meta p hp) hmnd
            · intro p hp hbr
              rcases List.mem_cons.mp hp with rfl | hmem
              · exact hcacheNone
              · exact hburn p hmem hbr

lemma inv_getPaste (now : Int) (ce cok : Bool) (st : St) (id : String) (h : Inv st) :
    Inv ((GetPaste now ce cok st id).1) := by
  obtain ⟨⟨hnd, hfresh⟩, hmnd, hburn⟩ := h
  have hInv : Inv st := ⟨⟨hnd, hfresh⟩, hmnd, hburn⟩
  rw [GetPaste]
  cases hm : lookupMeta st id with
  | none => exact hInv
  | some paste =>
    have hmem_paste : paste ∈ st.metadata := List.mem_of_find?_eq_some hm
    have hpid : paste.shortID = id := by
      have := List.find?_some hm
      simpa using this
    simp only
    by_cases hx : isExpired paste now = true
    · rw [if_pos hx]
      exact inv_deletePasteAll st id hInv
    · rw [if_neg hx]
      cases hch : (if ce = true then none else lookupCache st.cache id : Option String) with
      | some content =>
        simp only
        by_cases hb : paste.burnAfterRead = true
        · rw [if_pos hb]
          exact inv_deletePasteAll st id hInv
        · rw [if_neg hb]
          exact hInv
      | none =>
        simp only
        cases hst : lookupStore st.storage id with
        | none => exact hInv
        | some content =>
          simp only
          by_cases hc : ¬paste.burnAfterRead = true ∧ cok = true
          · rw [if_pos hc]
            have hInv2 : Inv { st with
                cache := setCache st.cache id content (cacheTTLFor paste.expiresAt now) } := by
              refine ⟨⟨hnd, ?_⟩, hmnd, ?_⟩
              · intro k hk
                obtain ⟨hfk, hck⟩ := hfresh k hk
                refine ⟨hfk, ?_⟩
                have hkid : ¬k = id := by
                  intro hh
                  rw [hh, hm] at hfk
                  exact Option.noConfusion hfk
                show lookupCache (setCache st.cache id content _) k = none
                rw [lookupCache_set, if_neg hkid]
                exact hck
              · intro p hp hbr
                show lookupCache (setCache st.cache id content _) p.shortID = none
                rw [lookupCache_set]
                by_cases hpq : p.shortID = id
                · have hpeq : p = paste :=
                    List.inj_on_of_nodup_map hmnd hp hmem_paste
                      (hpq.trans hpid.symm)
                  exact absurd (hpeq ▸ hbr) hc.1
                · rw [if_neg hpq]
                  exact hburn p hp hbr
            by_cases hb : paste.burnAfterRead = true
            · rw [if_pos hb]
              exact inv_deletePasteAll _ id hInv2
            · rw [if_neg hb]
              exact hInv2
          · rw [if_neg hc]
            by_cases hb : paste.burnAfterRead = true
            · rw [if_pos hb]
              exact inv_deletePasteAll st id hInv
            · rw [if_neg hb]
              exact hInv

lemma inv_execOp (detect : String → String) (pd : String → Option Int)
    (baseURL : String) (st : St) (op : Op) (h : Inv st) :
    Inv (execOp detect pd baseURL st op) := by
  cases op with
  | create req np nc cok => exact inv_createPaste detect pd baseURL np nc cok st req h
  | read id now ce cok => exact inv_getPaste now ce cok st id h

instance (st : St) : Decidable (FreshPool st) := by unfold FreshPool; infer_instance

instance (st : St) : Decidable (MetaNodup st) := by unfold MetaNodup; infer_instance

instance (st : St) : Decidable (BurnNotCached st) := by
  unfold BurnNotCached; infer_instance

instance (st : St) : Decidable (Inv st) := by unfold Inv; infer_instance

/-- C6.  Invariant I5: starting from any state satisfying the service
invariants (fresh, duplicate-free KGS pool; unique short IDs; no cached
burn paste), after any sequence of `CreatePaste` and `GetPaste` calls
no cache entry exists for any burn-after-read paste — `CreatePaste`
skips cache warming and `GetPaste` skips cache population for burn
pastes, and purges only remove entries. -/
theorem burn_never_cached (detect : String → String) (pd : String → Option Int)
    (baseURL : String) (ops : List Op) (st : St) (h : Inv st) :
    BurnNotCached (execOps detect pd baseURL st ops) := by
  induction ops generalizing st with
  | nil => exact h.2.2
  | cons op ops ih =>
    rw [execOps]
    exact ih _ (inv_execOp detect pd baseURL st op h)

/-- Initial state for the C6 witness: two fresh unused keys, all tiers
empty. -/
def c6St : St :=
  { kgs := [⟨"b1", false, 0, 0⟩, ⟨"b2", false, 0, 0⟩]
    metadata := []
    cache := []
    storage := [] }

/-- Operations for the C6 witness: create a burn paste, then read it. -/
def c6Ops : List Op :=
  [.create
      { content := "s"
        syntaxType := "plaintext"
        expiresIn := "burn"
        isPrivate := false }
      0 0 true,
   .read "b1" 1 false true]

/-- Witness for C6 on a concrete create-then-read run of a burn paste. -/
theorem burn_never_cached_witness :
    BurnNotCached (execOps (fun _ => "plaintext") parseGoDuration "u" c6St c6Ops) :=
  burn_never_cached (fun _ => "plaintext") parseGoDuration "u" c6Ops c6St (by decide)

/- ===================== C7: reaper cycle ===================== -/

/-- Embedding of `PasteRepository.GetExpiredBatch`: at most `limit`
records with `expires_at` present and strictly before `now` (the Mongo
query `expires_at < now, ≠ null` with `SetLimit`); the "some subset"
returned by Mongo is modelled as the first `limit` matches in index
order. -/
def getExpiredBatch (now : Int) (limit : Nat) (md : List Paste) : List Paste :=
  (md.filter (fun p => isExpired p now)).take limit

/-- Embedding of `PasteRepository.DeleteMany`: remove the records whose
short ID is listed and return the deleted count. -/
def deleteManyMeta (md : List Paste) (ids : List String) : List Paste × Nat :=
  (md.filter (fun p => ¬ids.contains p.shortID),
   md.length - (md.filter (fun p => ¬ids.contains p.shortID)).length)

/-- Observable side effects of a cleanup cycle, in order. -/
inductive CleanAct where
  | cacheDel (id : String)
  | blobDel (id : String)
  | metaDelMany (ids : List String)
deriving DecidableEq

/-- Embedding of `CleanupWorker.runCleanup`'s loop.  `errFetch i` /
`errDelete i` say whether the metadata fetch / `DeleteMany` of
iteration `i` fails (the Go code logs and returns, aborting the cycle);
cache and blob-store deletes have their errors ignored.  Returns the
final state, `totalCleaned`, and the trace of tier deletions. -/
def runCleanupAux (now : Int) (batchSize : Nat) (errFetch errDelete : Nat → Bool) :
    Nat → Nat → St → St × Nat × List CleanAct
  | 0, _, st => (st, 0, [])
  | fuel + 1, iter, st =>
    if errFetch iter then (st, 0, [])
    else if (getExpiredBatch now batchSize st.metadata).isEmpty then (st, 0, [])
    else if errDelete iter then
      ({ st with
          cache := ((getExpiredBatch now batchSize st.metadata).map
            Paste.shortID).foldl eraseCache st.cache
          storage := ((getExpiredBatch now batchSize st.metadata).map
            Paste.shortID).foldl eraseStore st.storage },
        0,
        ((getExpiredBatch now batchSize st.metadata).map Paste.shortID).map
            CleanAct.cacheDel
          ++ ((getExpiredBatch now batchSize st.metadata).map Paste.shortID).map
            CleanAct.blobDel)
    else if (getExpiredBatch now batchSize st.metadata).length < batchSize then
      ({ st with
          cache := ((getExpiredBatch now batchSize st.metadata).map
            Paste.shortID).foldl eraseCache st.cache
          storage := ((getExpiredBatch now batchSize st.metadata).map
            Paste.shortID).foldl eraseStore st.storage
          metadata := (deleteManyMeta st.metadata
            ((getExpiredBatch now batchSize st.metadata).map Paste.shortID)).1 },
        (deleteManyMeta st.metadata
          ((getExpiredBatch now batchSize st.metadata).map Paste.shortID)).2,
        ((getExpiredBatch now batchSize st.metadata).map Paste.shortID).map
            CleanAct.cacheDel
          ++ ((getExpiredBatch now batchSize st.metadata).map Paste.shortID).map
            CleanAct.blobDel
          ++ [CleanAct.metaDelMany
            ((getExpiredBatch now batchSize st.metadata).map Paste.shortID)])
    else
      ((runCleanupAux now batchSize errFetch errDelete fuel (iter + 1)
          { st with
            cache := ((getExpiredBatch now batchSize st.metadata).map
              Paste.shortID).foldl eraseCache st.cache
            storage := ((getExpiredBatch now batchSize st.metadata).map
              Paste.shortID).foldl eraseStore st.storage
            metadata := (deleteManyMeta st.metadata
              ((getExpiredBatch now batchSize st.metadata).map Paste.shortID)).1 }).1,
        (deleteManyMeta st.metadata
            ((getExpiredBatch now batchSize st.metadata).map Paste.shortID)).2
          + (runCleanupAux now batchSize errFetch errDelete fuel (iter + 1)
              { st with
                cache := ((getExpiredBatch now batchSize st.metadata).map
                  Paste.shortID).foldl eraseCache st.cache
                storage := ((getExpiredBatch now batchSize st.metadata).map
                  Paste.shortID).foldl eraseStore st.storage
                metadata := (deleteManyMeta st.metadata
                  ((getExpiredBatch now batchSize st.metadata).map
                    Paste.shortID)).1 }).2.1,
        (((getExpiredBatch now batchSize st.metadata).map Paste.shortID).map
            CleanAct.cacheDel
          ++ ((getExpiredBatch now batchSize st.metadata).map Paste.shortID).map
            CleanAct.blobDel
          ++ [CleanAct.metaDelMany
            ((getExpiredBatch now batchSize st.metadata).map Paste.shortID)])
          ++ (runCleanupAux now batchSize errFetch errDelete fuel (iter + 1)
              { st with
                cache := ((getExpiredBatch now batchSize st.metadata).map
                  Paste.shortID).foldl eraseCache st.cache
                storage := ((getExpiredBatch now batchSize st.metadata).map
                  Paste.shortID).foldl eraseStore st.storage
                metadata := (deleteManyMeta st.metadata
                  ((getExpiredBatch now batchSize st.metadata).map
                    Paste.shortID)).1 }).2.2)

/-- One cleanup cycle (`runCleanup`), with enough fuel supplied by the
caller; the Go loop needs no fuel because each full batch shrinks the
expired set. -/
def runCleanup (now : Int) (batchSize : Nat) (errFetch errDelete : Nat → Bool)
    (fuel : Nat) (st : St) : St × Nat × List CleanAct :=
  runCleanupAux now batchSize errFetch errDelete fuel 0 st

/-- The batches of short IDs the reap loop of design §4.8 processes,
written from the spec's pseudocode, for comparison with the embedded
`runCleanup`. -/
def specReapBatches (now : Int) (batchSize : Nat) : Nat → List Paste → List (List String)
  | 0, _ => []
  | fuel + 1, md =>
    if (getExpiredBatch now batchSize md).isEmpty then []
    else if (getExpiredBatch now batchSize md).length < batchSize then
      [(getExpiredBatch now batchSize md).map Paste.shortID]
    else
      (getExpiredBatch now batchSize md).map Paste.shortID
        :: specReapBatches now batchSize fuel
          (md.filter (fun p =>
            ¬((getExpiredBatch now batchSize md).map Paste.shortID).contains
              p.shortID))

/-- The tier-deletion trace the spec prescribes per batch: every short
ID deleted from the cache, then every one from the blob store, then one
bulk metadata delete. -/
def cleanTrace : List (List String) → List CleanAct
  | [] => []
  | ids :: rest =>
    (ids.map CleanAct.cacheDel ++ ids.map CleanAct.blobDel
      ++ [CleanAct.metaDelMany ids]) ++ cleanTrace rest

lemma length_filter_compl {α : Type} (q r : α → Bool) (l : List α)
    (h : ∀ a ∈ l, r a = !q a) :
    (l.filter q).length + (l.filter r).length = l.length := by
  induction l with
  | nil => rfl
  | cons a l ih =>
    have ha : r a = !q a := h a (List.mem_cons_self a l)
    have ih2 := ih (fun x hx => h x (List.mem_cons_of_mem a hx))
    rw [List.filter_cons, List.filter_cons, ha]
    cases hq : q a <;> simp <;> omega

lemma expired_of_shortID_mem (now : Int) (md : List Paste)
    (hND : (md.map Paste.shortID).Nodup) (p : Paste) (hp : p ∈ md)
    (l : List Paste) (hl : ∀ q ∈ l, q ∈ md.filter (fun p => isExpired p now))
    (hmem : p.shortID ∈ l.map Paste.shortID) :
    isExpired p now = true := by
  obtain ⟨q, hq, hqe⟩ := List.mem_map.mp hmem
  have hqE := hl q hq
  have hqmd : q ∈ md := List.mem_of_mem_filter hqE
  have hqexp := List.of_mem_filter hqE
  have hpq : p = q := List.inj_on_of_nodup_map hND hp hqmd hqe.symm
  rw [hpq]
  simpa using hqexp

lemma batchIds_mem_take (now : Int) (bs : Nat) (md : List Paste) :
    ∀ p ∈ (md.filter (fun p => isExpired p now)).take bs,
      p.shortID ∈ ((md.filter (fun p => isExpired p now)).map Paste.shortID).take bs := by
  intro p hp
  rw [← List.map_take]
  exact List.mem_map.mpr ⟨p, hp, rfl⟩

lemma batchIds_notmem_drop (now : Int) (bs : Nat) (md : List Paste)
    (hND : (md.map Paste.shortID).Nodup) :
    ∀ p ∈ (md.filter (fun p => isExpired p now)).drop bs,
      p.shortID ∉ ((md.filter (fun p => isExpired p now)).map Paste.shortID).take bs := by
  intro p hp hmem
  have hNDE : ((md.filter (fun p => isExpired p now)).map Paste.shortID).Nodup :=
    hND.sublist ((List.filter_sublist md).map Paste.shortID)
  rw [← List.take_append_drop bs (md.filter (fun p => isExpired p now)),
    List.map_append] at hNDE
  have hdisj := List.disjoint_of_nodup_append hNDE
  have hpd : p.shortID
      ∈ ((md.filter (fun p => isExpired p now)).drop bs).map Paste.shortID :=
    List.mem_map.mpr ⟨p, hp, rfl⟩
  rw [← List.map_take] at hmem
  exact hdisj hmem hpd

lemma filter_notcontains_all (now : Int) (md : List Paste)
    (hND : (md.map Paste.shortID).Nodup) :
    md.filter (fun p =>
        ¬((md.filter (fun p => isExpired p now)).map Paste.shortID).contains p.shortID)
      = md.filter (fun p => ¬isExpired p now) := by
  apply List.filter_congr
  intro p hp
  simp only [decide_eq_decide]
  apply not_congr
  constructor
  · intro hc
    exact expired_of_shortID_mem now md hND p hp _ (fun q hq => hq)
      (List.elem_iff.mp hc)
  · intro hx
    exact List.elem_iff.mpr
      (List.mem_map.mpr ⟨p, List.mem_filter.mpr ⟨hp, by simpa using hx⟩, rfl⟩)

lemma filter_exp_notcontains_drop (now : Int) (bs : Nat) (md : List Paste)
    (hND : (md.map Paste.shortID).Nodup) :
    (md.filter (fun p => isExpired p now)).filter (fun p =>
        ¬(((md.filter (fun p => isExpired p now)).take bs).map Paste.shortID).contains
          p.shortID)
      = (md.filter (fun p => isExpired p now)).drop bs := by
  have htake := batchIds_mem_take now bs md
  have hdrop := batchIds_notmem_drop now bs md hND
  have he1 : ((md.filter (fun p => isExpired p now)).take bs).filter (fun p =>
      ¬(((md.filter (fun p => isExpired p now)).take bs).map Paste.shortID).contains
        p.shortID) = [] :=
    List.filter_eq_nil_iff.mpr (fun p hp => by simp [htake p hp])
  have he2 : ((md.filter (fun p => isExpired p now)).drop bs).filter (fun p =>
      ¬(((md.filter (fun p => isExpired p now)).take bs).map Paste.shortID).contains
        p.shortID) = (md.filter (fun p => isExpired p now)).drop bs :=
    List.filter_eq_self.mpr (fun p hp => by simp [hdrop p hp])
  refine ((congrArg (List.filter _)
    (List.take_append_drop bs (md.filter (fun p => isExpired p now)))).symm).trans ?_
  rw [List.filter_append, he1, he2, List.nil_append]

lemma filter_exp_after_delete (now : Int) (bs : Nat) (md : List Paste)
    (hND : (md.map Paste.shortID).Nodup) :
    (md.filter (fun p =>
        ¬(((md.filter (fun p => isExpired p now)).take bs).map Paste.shortID).contains
          p.shortID)).filter (fun p => isExpired p now)
      = (md.filter (fun p => isExpired p now)).drop bs := by
  rw [List.filter_filter,
    List.filter_congr (fun p (hp : p ∈ md) => Bool.and_comm (isExpired p now) _),
    ← List.filter_filter]
  exact filter_exp_notcontains_drop now bs md hND

lemma filter_notexp_after_delete (now : Int) (bs : Nat) (md : List Paste)
    (hND : (md.map Paste.shortID).Nodup) :
    (md.filter (fun p =>
        ¬(((md.filter (fun p => isExpired p now)).take bs).map Paste.shortID).contains
          p.shortID)).filter (fun p => ¬isExpired p now)
      = md.filter (fun p => ¬isExpired p now) := by
  rw [List.filter_filter]
  apply List.filter_congr
  intro p hp
  cases hx : isExpired p now
  · have hc : p.shortID ∉
        ((md.filter (fun p => isExpired p now)).map Paste.shortID).take bs := by
      intro hmem
      rw [← List.map_take] at hmem
      have hx2 := expired_of_shortID_mem now md hND p hp _
        (fun q hq => List.mem_of_mem_take hq) hmem
      rw [hx2] at hx
      exact Bool.noConfusion hx
    simp [hx, hc]
  · simp [hx]

lemma filter_contains_eq_take (now : Int) (bs : Nat) (md : List Paste)
    (hND : (md.map Paste.shortID).Nodup) :
    md.filter (fun p =>
        (((md.filter (fun p => isExpired p now)).take bs).map Paste.shortID).contains
          p.shortID)
      = (md.filter (fun p => isExpired p now)).take bs := by
  have h1 : md.filter (fun p =>
      (((md.filter (fun p => isExpired p now)).take bs).map Paste.shortID).contains
        p.shortID)
      = (md.filter (fun p => isExpired p now)).filter (fun p =>
        (((md.filter (fun p => isExpired p now)).take bs).map Paste.shortID).contains
          p.shortID) := by
    rw [List.filter_filter]
    apply List.filter_congr
    intro p hp
    cases hc : (((md.filter (fun p => isExpired p now)).take bs).map
        Paste.shortID).contains p.shortID
    · simp
    · have hx := expired_of_shortID_mem now md hND p hp _
        (fun q hq => List.mem_of_mem_take hq) (List.elem_iff.mp hc)
      simp [hx]
  rw [h1]
  have htake := batchIds_mem_take now bs md
  have hdrop := batchIds_notmem_drop now bs md hND
  have he1 : ((md.filter (fun p => isExpired p now)).take bs).filter (fun p =>
      (((md.filter (fun p => isExpired p now)).take bs).map Paste.shortID).contains
        p.shortID) = (md.filter (fun p => isExpired p now)).take bs :=
    List.filter_eq_self.mpr (fun p hp => by simp [htake p hp])
  have he2 : ((md.filter (fun p => isExpired p now)).drop bs).filter (fun p =>
      (((md.filter (fun p => isExpired p now)).take bs).map Paste.shortID).contains
        p.shortID) = [] :=
    List.filter_eq_nil_iff.mpr (fun p hp => by simp [hdrop p hp])
  refine ((congrArg (List.filter _)
    (List.take_append_drop bs (md.filter (fun p => isExpired p now)))).symm).trans ?_
  rw [List.filter_append, he1, he2, List.append_nil]

lemma runCleanupAux_noerr (now : Int) (bs : Nat) (hBS : 0 < bs) :
    ∀ fuel (st : St) (iter : Nat),
      MetaNodup st →
      (st.metadata.filter (fun p => isExpired p now)).length < fuel →
      runCleanupAux now bs (fun _ => false) (fun _ => false) fuel iter st
        = ({ st with
              metadata := st.metadata.filter (fun p => ¬isExpired p now)
              cache := ((st.metadata.filter (fun p => isExpired p now)).map
                Paste.shortID).foldl eraseCache st.cache
              storage := ((st.metadata.filter (fun p => isExpired p now)).map
                Paste.shortID).foldl eraseStore st.storage },
            (st.metadata.filter (fun p => isExpired p now)).length,
            cleanTrace (specReapBatches now bs fuel st.metadata)) := by
  intro fuel
  induction fuel with
  | zero =>
    intro st iter hND hf
    omega
  | succ fuel ih =>
    intro st iter hND hf
    have hff : ∀ i : Nat, ¬((fun _ : Nat => false) i = true) := fun i => by simp
    rw [runCleanupAux, specReapBatches, if_neg (hff iter)]
    by_cases hE : st.metadata.filter (fun p => isExpired p now) = []
    · have hbe : (getExpiredBatch now bs st.metadata).isEmpty = true := by
        simp [getExpiredBatch, hE]
      rw [if_pos hbe, if_pos hbe]
      have hfe : st.metadata.filter (fun p => ¬isExpired p now) = st.metadata :=
        List.filter_eq_self.mpr (fun p hp => by
          have := List.filter_eq_nil_iff.mp hE p hp
          simpa using this)
      rw [hE, hfe]
      simp [cleanTrace]
    · have hbne : ¬((getExpiredBatch now bs st.metadata).isEmpty = true) := by
        intro hcon
        rw [getExpiredBatch, List.isEmpty_iff] at hcon
        rcases List.take_eq_nil_iff.mp hcon with h | h
        · omega
        · exact hE h
      rw [if_neg hbne, if_neg hbne, if_neg (hff iter)]
      by_cases hlt : (getExpiredBatch now bs st.metadata).length < bs
      · -- final (short) batch: the whole expired list is drained in one step
        rw [if_pos hlt, if_pos hlt]
        have hle : (st.metadata.filter (fun p => isExpired p now)).length ≤ bs := by
          rw [getExpiredBatch, List.length_take] at hlt
          omega
        simp only [getExpiredBatch, deleteManyMeta]
        simp only [List.take_of_length_le hle]
        have hfilter := filter_notcontains_all now st.metadata hND
        have hcompl := length_filter_compl (fun p => isExpired p now)
          (fun p => ¬isExpired p now) st.metadata
          (fun a _ => by cases h : isExpired a now <;> simp [h])
        rw [hfilter]
        simp only [Prod.mk.injEq]
        refine ⟨trivial, ?_, ?_⟩
        · omega
        · simp [cleanTrace]
      · -- full batch: recurse on the remainder
        rw [if_neg hlt, if_neg hlt]
        have hlenE : bs ≤ (st.metadata.filter (fun p => isExpired p now)).length := by
          rw [getExpiredBatch, List.length_take] at hlt
          omega
        simp only [getExpiredBatch, deleteManyMeta]
        have hND3 : MetaNodup { st with
            cache := (((st.metadata.filter (fun p => isExpired p now)).take bs).map
              Paste.shortID).foldl eraseCache st.cache
            storage := (((st.metadata.filter (fun p => isExpired p now)).take bs).map
              Paste.shortID).foldl eraseStore st.storage
            metadata := st.metadata.filter (fun p =>
              ¬(((st.metadata.filter (fun p => isExpired p now)).take bs).map
                Paste.shortID).contains p.shortID) } := by
          show (List.map Paste.shortID (st.metadata.filter _)).Nodup
          exact hND.sublist ((List.filter_sublist st.metadata).map Paste.shortID)
        have hf3 : (((st.metadata.filter (fun p =>
            ¬(((st.metadata.filter (fun p => isExpired p now)).take bs).map
              Paste.shortID).contains p.shortID))).filter
            (fun p => isExpired p now)).length < fuel := by
          rw [filter_exp_after_delete now bs st.metadata hND, List.length_drop]
          omega
        have hihEq := ih { st with
            cache := (((st.metadata.filter (fun p => isExpired p now)).take bs).map
              Paste.shortID).foldl eraseCache st.cache
            storage := (((st.metadata.filter (fun p => isExpired p now)).take bs).map
              Paste.shortID).foldl eraseStore st.storage
            metadata := st.metadata.filter (fun p =>
              ¬(((st.metadata.filter (fun p => isExpired p now)).take bs).map
                Paste.shortID).contains p.shortID) } (iter + 1) hND3 hf3
        rw [hihEq]
        have hsplitIds : (st.metadata.filter (fun p => isExpired p now)).map
            Paste.shortID
            = ((st.metadata.filter (fun p => isExpired p now)).take bs).map
                Paste.shortID
              ++ ((st.metadata.filter (fun p => isExpired p now)).drop bs).map
                Paste.shortID := by
          rw [← List.map_append, List.take_append_drop]
        have hcnt := filter_contains_eq_take now bs st.metadata hND
        have hcompl := length_filter_compl
          (fun p => (((st.metadata.filter (fun p => isExpired p now)).take bs).map
            Paste.shortID).contains p.shortID)
          (fun p => ¬(((st.metadata.filter (fun p => isExpired p now)).take bs).map
            Paste.shortID).contains p.shortID)
          st.metadata
          (fun a _ => by
            cases h : (((st.metadata.filter (fun p => isExpired p now)).take bs).map
              Paste.shortID).contains a.shortID <;> simp [h])
        rw [hcnt] at hcompl
        have hlentake : ((st.metadata.filter (fun p => isExpired p now)).take bs).length
            = bs := by
          rw [List.length_take]
          omega
        simp only [Prod.mk.injEq]
        refine ⟨?_, ?_, ?_⟩
        · rw [filter_notexp_after_delete now bs st.metadata hND,
            filter_exp_after_delete now bs st.metadata hND, hsplitIds,
            List.foldl_append, List.foldl_append]
        · rw [filter_exp_after_delete now bs st.metadata hND, List.length_drop]
          omega
        · simp [cleanTrace, List.append_assoc]

/-- C7: Reaper cycle algorithm.  Every fetched batch holds only records
whose `expires_at` is present and strictly before `now`, and at most
`batch_size` of them.  An error-free cycle drains the expired records
batch by batch, deleting each batch's short IDs from the cache, then
the blob store, then the metadata index in one bulk delete — the exact
action trace prescribed by the spec's reap pseudocode
(`cleanTrace (specReapBatches ...)`, which also terminates on an empty
or short batch) — and accumulates the total deleted count, which equals
the number of expired records.  A metadata-fetch error on the first
iteration aborts the cycle with nothing done; a metadata-delete error
aborts it after that batch's cache and blob deletions, with the
metadata index untouched and a count of zero. -/
theorem cleanup_cycle_spec (now : Int) (bs fuel : Nat) (st : St)
    (errFetch errDelete : Nat → Bool)
    (hBS : 0 < bs) (hND : MetaNodup st)
    (hfuel : (st.metadata.filter (fun p => isExpired p now)).length < fuel) :
    (∀ p ∈ getExpiredBatch now bs st.metadata,
      ∃ e, p.expiresAt = some e ∧ e < now)
    ∧ (getExpiredBatch now bs st.metadata).length ≤ bs
    ∧ (runCleanup now bs (fun _ => false) (fun _ => false) fuel st
        = ({ st with
              metadata := st.metadata.filter (fun p => ¬isExpired p now)
              cache := ((st.metadata.filter (fun p => isExpired p now)).map
                Paste.shortID).foldl eraseCache st.cache
              storage := ((st.metadata.filter (fun p => isExpired p now)).map
                Paste.shortID).foldl eraseStore st.storage },
            (st.metadata.filter (fun p => isExpired p now)).length,
            cleanTrace (specReapBatches now bs fuel st.metadata)))
    ∧ (errFetch 0 = true →
        runCleanup now bs errFetch errDelete fuel st = (st, 0, []))
    ∧ (errDelete 0 = true → errFetch 0 = false →
        ¬((getExpiredBatch now bs st.metadata).isEmpty = true) →
        runCleanup now bs errFetch errDelete fuel st
          = ({ st with
                cache := ((getExpiredBatch now bs st.metadata).map
                  Paste.shortID).foldl eraseCache st.cache
                storage := ((getExpiredBatch now bs st.metadata).map
                  Paste.shortID).foldl eraseStore st.storage },
              0,
              ((getExpiredBatch now bs st.metadata).map Paste.shortID).map
                  CleanAct.cacheDel
                ++ ((getExpiredBatch now bs st.metadata).map Paste.shortID).map
                  CleanAct.blobDel)) := by
  refine ⟨?_, ?_, ?_, ?_, ?_⟩
  · intro p hp
    have hmem : p ∈ st.metadata.filter (fun p => isExpired p now) :=
      List.mem_of_mem_take hp
    have hexp : isExpired p now = true := (List.mem_filter.mp hmem).2
    rw [isExpired] at hexp
    cases he : p.expiresAt with
    | none => rw [he] at hexp; exact absurd hexp (by simp)
    | some e =>
      rw [he] at hexp
      exact ⟨e, rfl, by simpa using hexp⟩
  · rw [getExpiredBatch, List.length_take]
    omega
  · rw [runCleanup]
    exact runCleanupAux_noerr now bs hBS fuel st 0 hND hfuel
  · intro hf0
    cases fuel with
    | zero => omega
    | succ f => rw [runCleanup, runCleanupAux, if_pos hf0]
  · intro hd0 hf0 hbne
    cases fuel with
    | zero => omega
    | succ f =>
      rw [runCleanup, runCleanupAux, if_neg (by simp [hf0]), if_neg hbne,
        if_pos hd0]

/-- Concrete reaper state: two expired records ("aa", "bb"), one live
("cc"), with matching cache and blob entries. -/
def c7St : St :=
  { kgs := []
    metadata :=
      [{ shortID := "aa"
         userID := none
         contentKey := buildContentKey "aa"
         expiresAt := some 3
         createdAt := 0
         syntaxType := "plaintext"
         isPrivate := false
         burnAfterRead := false },
       { shortID := "bb"
         userID := none
         contentKey := buildContentKey "bb"
         expiresAt := some 7
         createdAt := 1
         syntaxType := "plaintext"
         isPrivate := false
         burnAfterRead := false },
       { shortID := "cc"
         userID := none
         contentKey := buildContentKey "cc"
         expiresAt := some 20
         createdAt := 2
         syntaxType := "plaintext"
         isPrivate := false
         burnAfterRead := false }]
    cache := [("aa", "A", 60), ("cc", "C", 60)]
    storage := [("aa", "A"), ("bb", "B"), ("cc", "C")] }

theorem cleanup_cycle_spec_witness :
    (∀ p ∈ getExpiredBatch 10 2 c7St.metadata,
      ∃ e, p.expiresAt = some e ∧ e < 10)
    ∧ runCleanup 10 2 (fun _ => false) (fun _ => false) 3 c7St
        = ({ c7St with
              metadata := c7St.metadata.filter (fun p => ¬isExpired p 10)
              cache := ((c7St.metadata.filter (fun p => isExpired p 10)).map
                Paste.shortID).foldl eraseCache c7St.cache
              storage := ((c7St.metadata.filter (fun p => isExpired p 10)).map
                Paste.shortID).foldl eraseStore c7St.storage },
            (c7St.metadata.filter (fun p => isExpired p 10)).length,
            cleanTrace (specReapBatches 10 2 3 c7St.metadata))
    ∧ runCleanup 10 2 (fun _ => false) (fun _ => true) 3 c7St
        = ({ c7St with
              cache := ((getExpiredBatch 10 2 c7St.metadata).map
                Paste.shortID).foldl eraseCache c7St.cache
              storage := ((getExpiredBatch 10 2 c7St.metadata).map
                Paste.shortID).foldl eraseStore c7St.storage },
            0,
            ((getExpiredBatch 10 2 c7St.metadata).map Paste.shortID).map
                CleanAct.cacheDel
              ++ ((getExpiredBatch 10 2 c7St.metadata).map Paste.shortID).map
                CleanAct.blobDel) :=
  ⟨(cleanup_cycle_spec 10 2 3 c7St (fun _ => false) (fun _ => true)
      (by decide) (by decide) (by decide)).1,
   (cleanup_cycle_spec 10 2 3 c7St (fun _ => false) (fun _ => true)
      (by decide) (by decide) (by decide)).2.2.1,
   (cleanup_cycle_spec 10 2 3 c7St (fun _ => false) (fun _ => true)
      (by decide) (by decide) (by decide)).2.2.2.2 rfl rfl (by decide)⟩

end Gisty
